import Mathlib

/-!
Verification of the pihole6 exporter pair (metrics collector and log shipper).

The Python source keeps its per-cycle aggregation state in insertion-ordered
dictionaries; we embed those as association lists (`List (key × value)`) with
the dictionary operations used by the source: lookup of the first binding,
membership, in-place modification of the first binding, and the
insert-if-absent increment idiom `if k in d: d[k] += 1 else: d[k] = 1`.
Reply times and bucket boundaries are floats in the source; we embed them as
rationals.  Timestamps are embedded as integers.
-/

namespace Pihole

/-- Dictionary lookup with a default: value of the first binding of `k`. -/
def aget {α β : Type} [DecidableEq α] (d : β) : List (α × β) → α → β
  | [], _ => d
  | (k, v) :: t, k' => if k' = k then v else aget d t k'

/-- Dictionary membership (`k in d`). -/
def hasKey {α β : Type} [DecidableEq α] : List (α × β) → α → Bool
  | [], _ => false
  | (k, _) :: t, k' => if k' = k then true else hasKey t k'

/-- Modify the first binding of `k` in place (`d[k] = f(d[k])`); no-op when
`k` is absent. -/
def amod {α β : Type} [DecidableEq α] : List (α × β) → α → (β → β) → List (α × β)
  | [], _, _ => []
  | (k, v) :: t, k', f => if k' = k then (k, f v) :: t else (k, v) :: amod t k' f

/-- The source's counting idiom: `if k in d: d[k] += 1 else: d[k] = 1`.
A fresh key is appended at the end, matching Python dict insertion order. -/
def incr1 (l : List (String × Nat)) (k : String) : List (String × Nat) :=
  if hasKey l k then amod l k (· + 1) else l ++ [(k, 1)]

/-- `clear_cnts` on one counter table: every key with a nonzero count is set
to 0 (and kept), every key already at 0 is deleted. -/
def clearTable (l : List (String × Nat)) : List (String × Nat) :=
  l.filterMap (fun p => if p.2 ≠ 0 then some (p.1, 0) else none)

/-- First-seen-order deduplication of a list of keys (the order in which a
Python dict keyed by those values lists its keys). -/
def dedupFirst {α : Type} [DecidableEq α] (l : List α) : List α :=
  l.foldl (fun acc k => if k ∈ acc then acc else acc ++ [k]) []

/-- One query record from the `queries` API endpoint, with the fields read by
`PiholeCollector._process_query`.  `replyTime` is `q["reply"]["time"]`:
`none` models an absent or non-numeric value.  `rcode` is `q.get("rcode", "")`
with the absent field modelled as `""`.  `clientIp` is `q["client"]["ip"]`. -/
structure Query where
  qtype : String
  status : String
  replyType : String
  clientIp : String
  upstream : Option String
  replyTime : Option ℚ
  rcode : String
deriving Repr, DecidableEq

/-- The mutable aggregation state of `PiholeCollector` (the fields cleared by
`clear_cnts` and written by `_process_query`).  Per-class latency bucket
tables are association lists keyed by the bucket boundary (the source keys
them by `str(bucket)`, a bijective image of the boundary). -/
structure CollectorState where
  type_cnt : List (String × Nat)
  status_cnt : List (String × Nat)
  reply_cnt : List (String × Nat)
  client_cnt : List (String × Nat)
  upstream_cnt : List (String × Nat)
  timeout_cnt : Nat
  error_cnt : List (String × Nat)
  total_queries_processed : Nat
  latency_counts : List (String × List (ℚ × Nat))
  latency_sums : List (String × ℚ)
  latency_total_counts : List (String × Nat)
deriving Repr, DecidableEq

/-- The state set up in `PiholeCollector.__init__`: all tables empty. -/
def initState : CollectorState :=
  ⟨[], [], [], [], [], 0, [], 0, [], [], []⟩

/-- `self.latency_buckets = [0.0001, 0.0005, 0.001, 0.01, 0.1, 0.5, 1.0, 2.5]`. -/
def latencyBuckets : List ℚ :=
  [1/10000, 1/2000, 1/1000, 1/100, 1/10, 1/2, 1, 5/2]

/-- `{str(bucket): 0 for bucket in self.latency_buckets}`. -/
def initBuckets : List (ℚ × Nat) :=
  latencyBuckets.map (fun b => (b, 0))

/-- `for bucket in self.latency_buckets: if reply_time <= bucket: counts[str(bucket)] += 1`.
In every reachable state a class's bucket table has exactly the boundaries of
`latencyBuckets` as keys, so the loop is the entrywise map below. -/
def bumpBuckets (t : ℚ) (bl : List (ℚ × Nat)) : List (ℚ × Nat) :=
  bl.map (fun p => if t ≤ p.1 then (p.1, p.2 + 1) else p)

/-- `PiholeCollector.clear_cnts`. -/
def clearCnts (s : CollectorState) : CollectorState :=
  { type_cnt := clearTable s.type_cnt
    status_cnt := clearTable s.status_cnt
    reply_cnt := clearTable s.reply_cnt
    client_cnt := clearTable s.client_cnt
    upstream_cnt := clearTable s.upstream_cnt
    timeout_cnt := 0
    error_cnt := []
    total_queries_processed := 0
    latency_counts := []
    latency_sums := []
    latency_total_counts := [] }

/-- The status → latency-class table of `_process_query` (the
`status_label` if/elif chain), with its fall-through default. -/
def statusLabel (status : String) : String :=
  if status = "CACHE" ∨ status = "CACHE_STALE" then "cache"
  else if status = "FORWARDED" then "forwarded"
  else if status ∈ ["GRAVITY", "REGEX", "DENYLIST", "GRAVITY_CNAME", "REGEX_CNAME",
      "DENYLIST_CNAME", "EXTERNAL_BLOCKED_IP", "EXTERNAL_BLOCKED_NULL",
      "EXTERNAL_BLOCKED_NXRA", "EXTERNAL_BLOCKED_EDE15", "SPECIAL_DOMAIN"] then "blocked"
  else if status = "RETRIED" ∨ status = "RETRIED_DNSSEC" then "retried"
  else if status = "IN_PROGRESS" then "in_progress"
  else if status = "DBBUSY" ∨ status = "UNKNOWN" then "other"
  else "unknown"

/-- The upstream rewrite at the top of `_process_query`: an absent upstream
becomes a synthetic label. -/
def effUpstream (upstream : Option String) (status : String) : String :=
  match upstream with
  | some u => u
  | none =>
    if status = "GRAVITY" ∨ status = "CACHE" ∨ status = "SPECIAL_DOMAIN" then
      "None-" ++ status
    else "None-OTHER"

/-- The latency-tracking block of `_process_query` (run only for a valid
reply time `t`): initialize the class's bucket table, sum and count on first
sight, then add `t` to the sum, 1 to the count, and 1 to every bucket
boundary `≥ t`. -/
def trackLatency (s : CollectorState) (status : String) (t : ℚ) : CollectorState :=
  let lbl := statusLabel status
  let s1 :=
    if hasKey s.latency_counts lbl then s
    else
      { s with
        latency_counts := s.latency_counts ++ [(lbl, initBuckets)]
        latency_sums := s.latency_sums ++ [(lbl, 0)]
        latency_total_counts := s.latency_total_counts ++ [(lbl, 0)] }
  { s1 with
    latency_sums := amod s1.latency_sums lbl (· + t)
    latency_total_counts := amod s1.latency_total_counts lbl (· + 1)
    latency_counts := amod s1.latency_counts lbl (bumpBuckets t) }

/-- The five table increments of `_process_query` (type, status, reply type,
resolved client, rewritten upstream). -/
def tablesStep (rn : String → String) (s : CollectorState) (q : Query) : CollectorState :=
  { s with
    type_cnt := incr1 s.type_cnt q.qtype
    status_cnt := incr1 s.status_cnt q.status
    reply_cnt := incr1 s.reply_cnt q.replyType
    client_cnt := incr1 s.client_cnt (rn q.clientIp)
    upstream_cnt := incr1 s.upstream_cnt (effUpstream q.upstream q.status) }

/-- The guarded latency block of `_process_query`: tracked only when the
reply time is present, numeric and nonnegative. -/
def latStep (s : CollectorState) (q : Query) : CollectorState :=
  match q.replyTime with
  | some t => if 0 ≤ t then trackLatency s q.status t else s
  | none => s

/-- `if rcode == "TIMEOUT" or status == "TIMEOUT": self.timeout_cnt += 1`. -/
def timeoutStep (s : CollectorState) (q : Query) : CollectorState :=
  if q.rcode = "TIMEOUT" ∨ q.status = "TIMEOUT" then
    { s with timeout_cnt := s.timeout_cnt + 1 }
  else s

/-- `self.total_queries_processed += 1`. -/
def totalStep (s : CollectorState) : CollectorState :=
  { s with total_queries_processed := s.total_queries_processed + 1 }

/-- `if rcode and rcode != "NOERROR": error_cnt[rcode] += 1` (insert-if-absent). -/
def errorStep (s : CollectorState) (q : Query) : CollectorState :=
  if q.rcode ≠ "" ∧ q.rcode ≠ "NOERROR" then
    { s with error_cnt := incr1 s.error_cnt q.rcode }
  else s

/-- `PiholeCollector._process_query`, the statements in source order.  `rn` is
the hostname resolver (`self.resolve_hostname`), an external lookup modelled
as a pure map from the client IP to the client label. -/
def processQuery (rn : String → String) (s : CollectorState) (q : Query) : CollectorState :=
  errorStep (totalStep (timeoutStep (latStep (tablesStep rn s q) q) q)) q

/-- The per-scrape processing loop: `for q in reply["queries"]: self._process_query(q)`. -/
def ingest (rn : String → String) (s : CollectorState) (qs : List Query) : CollectorState :=
  qs.foldl (processQuery rn) s

/-- The aggregation state at the end of one scrape cycle over record set `R`:
`self.clear_cnts()` followed by processing every record of `R`. -/
def cycleState (rn : String → String) (S : CollectorState) (R : List Query) : CollectorState :=
  ingest rn (clearCnts S) R

/-- Bucket count stored for class `c` at boundary `b`. -/
def latCount (s : CollectorState) (c : String) (b : ℚ) : Nat :=
  aget 0 (aget [] s.latency_counts c) b

/-- Stored latency sum for class `c`. -/
def latSum (s : CollectorState) (c : String) : ℚ :=
  aget 0 s.latency_sums c

/-- Stored observation count for class `c`. -/
def latTotal (s : CollectorState) (c : String) : Nat :=
  aget 0 s.latency_total_counts c

/-- Sum over all latency classes of the stored observation counts. -/
def sumTotals (s : CollectorState) : Nat :=
  (s.latency_total_counts.map Prod.snd).sum

/-- The bucket list emitted for class `c` by `PiholeCollector.collect`: one
`(boundary, cumulative count)` pair per configured boundary, then the
`("+Inf", latency_total_counts[c])` entry, modelled with `none` as the +∞
boundary. -/
def exportBuckets (s : CollectorState) (c : String) : List (Option ℚ × Nat) :=
  (latencyBuckets.map (fun b => (some b, latCount s c b))) ++ [(none, latTotal s c)]

/-- Is the record's reply time present, numeric and nonnegative (the guard
before the latency-tracking block)? -/
def qValid (q : Query) : Bool :=
  match q.replyTime with
  | some t => decide (0 ≤ t)
  | none => false

/-- The record's reply time, defaulting to 0 when absent. -/
def qTime (q : Query) : ℚ :=
  match q.replyTime with
  | some t => t
  | none => 0

/-- Is `q` a valid observation routed to latency class `c`? -/
def obsP (c : String) (q : Query) : Bool :=
  qValid q && decide (statusLabel q.status = c)

/-- Is `q` a class-`c` observation with reply time at most `b`? -/
def obsLeP (c : String) (b : ℚ) (q : Query) : Bool :=
  obsP c q && decide (qTime q ≤ b)

/-- Number of class-`c` observations in `qs` with reply time at most `b`. -/
def countObsLe (qs : List Query) (c : String) (b : ℚ) : Nat :=
  (qs.filter (obsLeP c b)).length

/-- The reply times of the valid observations of `qs` routed to class `c`,
in input order. -/
def classObs (qs : List Query) (c : String) : List ℚ :=
  (qs.filter (obsP c)).map qTime

/-- The six metric families yielded from the `stats/summary` reply, in
yield order. -/
def summaryFamilies : List String :=
  ["pihole_query_by_type", "pihole_query_by_status", "pihole_query_replies",
   "pihole_query_count", "pihole_client_count", "pihole_domains_being_blocked"]

/-- The fixed metric families yielded from the last-minute query window, in
yield order (the latency histogram family follows, conditionally). -/
def minuteFamilies : List String :=
  ["pihole_query_type_1m", "pihole_query_status_1m", "pihole_query_reply_1m",
   "pihole_query_client_1m", "pihole_query_upstream_1m", "pihole_dns_timeouts_1m",
   "pihole_dns_errors_1m", "pihole_dns_queries_processed_1m"]

/-- `PiholeCollector.collect`, modelled as the list of metric family names the
generator yields during one scrape.  Each upstream fetch is an input: `none`
models a call that raises (or, for the summary, a response failing the
validation checks, all of which run before the first yield).  The exception is
caught only at the very end of `collect`, so families yielded before the
failing call have already been handed to the consumer and remain emitted,
while nothing from the failing call onward is yielded.  `sysFamilies` is the
list of host-resource families produced by `_collect_system_metrics` (an
environment probe).  On the full path the collector clears its state, ingests
the fetched window, and yields the latency histogram family only when
`latency_counts` is non-empty. -/
def collectFamilies (rn : String → String) (s : CollectorState)
    (summary : Option Unit) (upstreams : Option Unit)
    (queriesReply : Option (List Query)) (sysFamilies : List String) : List String :=
  match summary with
  | none => []
  | some _ =>
    summaryFamilies ++
      match upstreams with
      | none => []
      | some _ =>
        "pihole_query_upstream_count" ::
          match queriesReply with
          | none => []
          | some qs =>
            let s2 := ingest rn (clearCnts s) qs
            minuteFamilies ++
              (if s2.latency_counts ≠ [] then ["pihole_dns_latency_seconds_1m"] else []) ++
              sysFamilies

/-!  The log-shipping path (`pihole6_logs_exporter.py`). -/

/-- One query record as consumed by `PiholeLogsExporter.format_for_loki`:
`time` is `q.get('time')` (`none` models the absent field), and the label
fields are read with `q.get(..., 'unknown')` defaults folded into the value. -/
structure LogRecord where
  time : Option Int
  clientIp : String
  qtype : String
  status : String
  domain : String
deriving Repr, DecidableEq

/-- The timestamp under which a record is shipped: `int(float(q.get('time')))`,
with the source's falsy test (`if not q_ts: continue`) skipping both an absent
and a zero timestamp, modelled as `none`. -/
def tsOf (r : LogRecord) : Option Int :=
  match r.time with
  | none => none
  | some t => if t = 0 then none else some t

/-- The eight-label stream key built in `format_for_loki`.  The source groups
by `tuple(sorted(stream_labels.items()))`, a bijective image of this label
set, so grouping by this structure is the same partition.  `job` and
`service` are the constants `"pihole_logs_exporter"` and
`"pihole_query_log"`. -/
structure StreamKey where
  job : String
  service : String
  host : String
  client_ip : String
  client_name : String
  qtype : String
  status : String
  domain : String
deriving Repr, DecidableEq

/-- The stream labels of one record: constants, the exporter's host, the
record's client ip, the resolved client name (`rn`), and the record's type,
status and domain. -/
def mkKey (host : String) (rn : String → String) (r : LogRecord) : StreamKey :=
  { job := "pihole_logs_exporter"
    service := "pihole_query_log"
    host := host
    client_ip := r.clientIp
    client_name := rn r.clientIp
    qtype := r.qtype
    status := r.status
    domain := r.domain }

/-- Append one `(nanosecond timestamp, record)` value to the stream group of
key `k`, creating the group at the end on first sight — the dict idiom of
`format_for_loki`.  The source stores `[str(ts*1_000_000_000), json(flat_q)]`;
we keep the nanosecond timestamp and the record itself as the value. -/
def addToStream (streams : List (StreamKey × List (Int × LogRecord)))
    (k : StreamKey) (v : Int × LogRecord) : List (StreamKey × List (Int × LogRecord)) :=
  if hasKey streams k then amod streams k (· ++ [v]) else streams ++ [(k, [v])]

/-- One iteration of the `for q in queries` loop of `format_for_loki`:
records without a usable timestamp are skipped, otherwise the running maximum
timestamp is updated and the value is appended to its stream group. -/
def formatStep (host : String) (rn : String → String)
    (acc : List (StreamKey × List (Int × LogRecord)) × Int) (r : LogRecord) :
    List (StreamKey × List (Int × LogRecord)) × Int :=
  match tsOf r with
  | none => acc
  | some t => (addToStream acc.1 (mkKey host rn r) (t * 1000000000, r), max acc.2 t)

/-- `PiholeLogsExporter.format_for_loki`: the list of stream groups (first-seen
order, with their ordered values) and the maximum timestamp seen (0 when no
record had one). -/
def formatForLoki (host : String) (rn : String → String) (qs : List LogRecord) :
    List (StreamKey × List (Int × LogRecord)) × Int :=
  qs.foldl (formatStep host rn) ([], 0)

/-- The cursor state file: missing, present but empty/unparseable, or holding
an integer timestamp. -/
inductive CursorFile where
  | missing : CursorFile
  | invalid : CursorFile
  | stored : Int → CursorFile
deriving Repr, DecidableEq

/-- `PiholeLogsExporter.read_last_timestamp`: the stored integer, or
`now - 1800` when the file is missing, empty or unparseable. -/
def readLastTimestamp (f : CursorFile) (now : Int) : Int :=
  match f with
  | .stored ts => ts
  | .missing => now - 1800
  | .invalid => now - 1800

/-- The externally visible outcome of one `PiholeLogsExporter.run` cycle: the
cursor file afterwards, whether a query fetch was issued, and whether a push
to the log sink was attempted. -/
structure CycleResult where
  file : CursorFile
  fetched : Bool
  pushed : Bool
deriving Repr, DecidableEq

/-- `PiholeLogsExporter.run`, one cycle.  `lokiOk` is whether `get_loki_url`
accepts the configured target (checked before anything else); `fetched` is
the outcome of `fetch_queries` (`none` models a raised transport/decode
error); `pushOk` is whether the POST in `send_to_loki` succeeds.  Every
raised error is caught by the surrounding handler after the write points, so
a failed fetch or push leaves the cursor file untouched; `write_last_timestamp`
is modelled as succeeding. -/
def runCycle (host : String) (rn : String → String) (lokiOk : Bool)
    (f : CursorFile) (now : Int) (fetched : Option (List LogRecord))
    (pushOk : Bool) : CycleResult :=
  if ¬ lokiOk then ⟨f, false, false⟩
  else
    let last := readLastTimestamp f now
    if last ≥ now then ⟨f, false, false⟩
    else
      match fetched with
      | none => ⟨f, true, false⟩
      | some qs =>
        if qs = [] then ⟨.stored now, true, false⟩
        else
          let fm := formatForLoki host rn qs
          if fm.1 ≠ [] then
            if pushOk then ⟨.stored fm.2, true, true⟩ else ⟨f, true, true⟩
          else ⟨.stored now, true, false⟩

/-- Number of records of `qs` whose key under `f` is `k` (the value a
counter table keyed by `f` derives from the batch). -/
def countKeyBy (f : Query → String) (qs : List Query) (k : String) : Nat :=
  (qs.filter (fun q => decide (f q = k))).length

/-- Number of records of `qs` counted as a DNS error under rcode `k`. -/
def countErr (qs : List Query) (k : String) : Nat :=
  (qs.filter (fun q => decide ((q.rcode ≠ "" ∧ q.rcode ≠ "NOERROR") ∧ q.rcode = k))).length

/-- Number of records of `qs` counted as timeouts. -/
def countTimeout (qs : List Query) : Nat :=
  (qs.filter (fun q => decide (q.rcode = "TIMEOUT" ∨ q.status = "TIMEOUT"))).length

/-- Well-formedness of the latency state maintained by `_process_query`: the
three latency maps share one key set (they are always initialized together),
and every class's bucket table has exactly the configured boundaries as its
keys.  It holds for the cleared state and is preserved by processing. -/
def WFLat (s : CollectorState) : Prop :=
  (∀ c, hasKey s.latency_sums c = hasKey s.latency_counts c) ∧
  (∀ c, hasKey s.latency_total_counts c = hasKey s.latency_counts c) ∧
  (∀ p ∈ s.latency_counts, (p.2).map Prod.fst = latencyBuckets)

/-!  Concrete inputs used by witnesses and counterexamples. -/

/-- A collector state left over from a prior cycle: one nonzero type count. -/
def leftoverState : CollectorState :=
  { initState with type_cnt := [("A", 1)] }

/-- A record with an absent upstream and a status outside the synthetic-label
trio. -/
def qOtherUpstream : Query :=
  { qtype := "A", status := "FORWARDED", replyType := "IP", clientIp := "10.0.0.2",
    upstream := none, replyTime := none, rcode := "" }

/-- A forwarded record with a 1 ms reply time. -/
def qForwarded : Query :=
  { qtype := "A", status := "FORWARDED", replyType := "IP", clientIp := "10.0.0.2",
    upstream := some "8.8.8.8", replyTime := some (1/1000), rcode := "NOERROR" }

/-- A record whose reply time is the sentinel -1 (no latency observation). -/
def qNegativeReply : Query :=
  { qtype := "A", status := "CACHE", replyType := "IP", clientIp := "10.0.0.3",
    upstream := none, replyTime := some (-1), rcode := "" }

/-- A log record with timestamp 150. -/
def logRec150 : LogRecord :=
  { time := some 150, clientIp := "10.0.0.2", qtype := "A", status := "FORWARDED",
    domain := "example.com" }

/-!  Association-list lemmas. -/

theorem aget_of_hasKey_false {α β : Type} [DecidableEq α] (d : β) {l : List (α × β)}
    {k : α} (h : hasKey l k = false) : aget d l k = d := by
  induction l with
  | nil => rfl
  | cons p t ih =>
    by_cases hk : k = p.1
    · simp [hasKey, hk] at h
    · simp [hasKey, hk] at h
      simp [aget, hk, ih h]

theorem hasKey_amod {α β : Type} [DecidableEq α] (l : List (α × β)) (k k' : α)
    (f : β → β) : hasKey (amod l k f) k' = hasKey l k' := by
  induction l with
  | nil => rfl
  | cons p t ih =>
    by_cases hk : k = p.1
    · simp [amod, hk, hasKey]
    · simp [amod, hk, hasKey, ih]

theorem aget_amod {α β : Type} [DecidableEq α] (d : β) (l : List (α × β)) (k k' : α)
    (f : β → β) :
    aget d (amod l k f) k' =
      if k' = k then (if hasKey l k then f (aget d l k) else d)
      else aget d l k' := by
  induction l with
  | nil => by_cases hk : k' = k <;> simp [amod, aget, hasKey, hk]
  | cons p t ih =>
    obtain ⟨a, b⟩ := p
    by_cases hk : k = a
    · subst hk
      by_cases hk' : k' = k <;> simp [amod, aget, hasKey, hk']
    · by_cases hk' : k' = a
      · have hne : ¬ k' = k := fun h => hk (h.symm.trans hk')
        have hka : ¬ a = k := fun h => hk h.symm
        simp [amod, hk, aget, hk', hne, hka]
      · simp [amod, hk, aget, hk', ih, hasKey]

theorem map_fst_amod {α β : Type} [DecidableEq α] (l : List (α × β)) (k : α)
    (f : β → β) : (amod l k f).map Prod.fst = l.map Prod.fst := by
  induction l with
  | nil => rfl
  | cons p t ih =>
    by_cases hk : k = p.1 <;> simp [amod, hk, ih]

theorem hasKey_append {α β : Type} [DecidableEq α] (l m : List (α × β)) (k : α) :
    hasKey (l ++ m) k = (hasKey l k || hasKey m k) := by
  induction l with
  | nil => simp [hasKey]
  | cons p t ih =>
    by_cases hk : k = p.1 <;> simp [hasKey, hk, ih]

theorem aget_append {α β : Type} [DecidableEq α] (d : β) (l m : List (α × β)) (k : α) :
    aget d (l ++ m) k = if hasKey l k then aget d l k else aget d m k := by
  induction l with
  | nil => simp [hasKey, aget]
  | cons p t ih =>
    by_cases hk : k = p.1 <;> simp [aget, hasKey, hk, ih]

theorem mem_of_hasKey {α β : Type} [DecidableEq α] (d : β) {l : List (α × β)} {k : α}
    (h : hasKey l k = true) : (k, aget d l k) ∈ l := by
  induction l with
  | nil => simp [hasKey] at h
  | cons p t ih =>
    obtain ⟨a, b⟩ := p
    by_cases hk : k = a
    · subst hk
      simp [aget]
    · simp [hasKey, hk] at h
      simp [aget, hk]
      exact ih h

theorem sum_snd_amod_add {α : Type} [DecidableEq α] {l : List (α × Nat)} {k : α}
    (n : Nat) (h : hasKey l k = true) :
    ((amod l k (· + n)).map Prod.snd).sum = (l.map Prod.snd).sum + n := by
  induction l with
  | nil => simp [hasKey] at h
  | cons p t ih =>
    by_cases hk : k = p.1
    · simp [amod, hk]
      omega
    · simp [hasKey, hk] at h
      simp [amod, hk, ih h]
      omega

theorem aget_incr1 (l : List (String × Nat)) (k k' : String) :
    aget 0 (incr1 l k) k' = aget 0 l k' + (if k' = k then 1 else 0) := by
  unfold incr1
  by_cases h : hasKey l k
  · rw [if_pos h, aget_amod]
    by_cases hk : k' = k
    · simp [hk, h]
    · simp [hk]
  · rw [if_neg h, aget_append]
    by_cases hk : k' = k
    · subst hk
      simp [h, aget, aget_of_hasKey_false 0 (Bool.of_not_eq_true h)]
    · by_cases hl : hasKey l k'
      · simp [hl, hk]
      · simp [hl, hk, aget, aget_of_hasKey_false 0 (Bool.of_not_eq_true hl)]

theorem aget_clearTable (l : List (String × Nat)) (k : String) :
    aget 0 (clearTable l) k = 0 := by
  induction l with
  | nil => rfl
  | cons p t ih =>
    by_cases hz : p.2 = 0
    · simpa [clearTable, hz] using ih
    · by_cases hk : k = p.1 <;> simp [clearTable, hz, aget, hk] <;> simpa [clearTable] using ih

theorem bumpBuckets_cons (t a : ℚ) (n : Nat) (tl : List (ℚ × Nat)) :
    bumpBuckets t ((a, n) :: tl) =
      (if t ≤ a then (a, n + 1) else (a, n)) :: bumpBuckets t tl := by
  by_cases hb : t ≤ a <;> simp [bumpBuckets, hb]

theorem map_fst_bumpBuckets (t : ℚ) (bl : List (ℚ × Nat)) :
    (bumpBuckets t bl).map Prod.fst = bl.map Prod.fst := by
  induction bl with
  | nil => rfl
  | cons p tl ih =>
    obtain ⟨a, n⟩ := p
    rw [bumpBuckets_cons]
    by_cases hb : t ≤ a
    · rw [if_pos hb]
      simp [ih]
    · rw [if_neg hb]
      simp [ih]

theorem aget_bumpBuckets (t : ℚ) (bl : List (ℚ × Nat)) (b : ℚ) :
    aget 0 (bumpBuckets t bl) b =
      aget 0 bl b + (if hasKey bl b = true ∧ t ≤ b then 1 else 0) := by
  induction bl with
  | nil => simp [bumpBuckets, aget, hasKey]
  | cons p tl ih =>
    obtain ⟨a, n⟩ := p
    rw [bumpBuckets_cons]
    by_cases hb : t ≤ a
    · rw [if_pos hb]
      by_cases hk : b = a
      · subst hk
        simp [aget, hasKey, hb]
      · simp [aget, hk, hasKey, ih]
    · rw [if_neg hb]
      by_cases hk : b = a
      · subst hk
        simp [aget, hasKey, hb]
      · simp [aget, hk, hasKey, ih]

theorem aget_initBuckets (b : ℚ) : aget 0 initBuckets b = 0 := by
  have : ∀ l : List ℚ, aget 0 (l.map (fun x => (x, 0))) b = 0 := by
    intro l
    induction l with
    | nil => rfl
    | cons x t ih => by_cases hk : b = x <;> simp [aget, hk, ih]
  simpa [initBuckets] using this latencyBuckets

theorem hasKey_initBuckets (b : ℚ) :
    hasKey initBuckets b = decide (b ∈ latencyBuckets) := by
  have : ∀ l : List ℚ, hasKey (l.map (fun x => (x, 0))) b = decide (b ∈ l) := by
    intro l
    induction l with
    | nil => simp [hasKey]
    | cons x t ih => by_cases hk : b = x <;> simp [hasKey, hk, ih]
  simpa [initBuckets] using this latencyBuckets

theorem mem_amod_snd {α β : Type} [DecidableEq α] {P : β → Prop} {l : List (α × β)}
    {k : α} {f : β → β} (hl : ∀ p ∈ l, P p.2) (hf : ∀ v, P v → P (f v)) :
    ∀ p ∈ amod l k f, P p.2 := by
  induction l with
  | nil => simp [amod]
  | cons q t ih =>
    obtain ⟨a, b⟩ := q
    by_cases hk : k = a
    · intro p hp
      simp only [amod, if_pos hk] at hp
      rcases List.mem_cons.mp hp with hp | hp
      · subst hp
        exact hf _ (hl (a, b) (by simp))
      · exact hl p (List.mem_cons_of_mem _ hp)
    · intro p hp
      simp only [amod, if_neg hk] at hp
      rcases List.mem_cons.mp hp with hp | hp
      · subst hp
        exact hl (a, b) (by simp)
      · exact ih (fun p hp => hl p (List.mem_cons_of_mem _ hp)) p hp

theorem hasKey_iff_mem_fst {α β : Type} [DecidableEq α] (l : List (α × β)) (k : α) :
    hasKey l k = true ↔ k ∈ l.map Prod.fst := by
  induction l with
  | nil => simp [hasKey]
  | cons p t ih =>
    by_cases hk : k = p.1 <;> simp [hasKey, hk, ih]

theorem map_fst_initBuckets : initBuckets.map Prod.fst = latencyBuckets := by
  simp [initBuckets, List.map_map]
  rfl

/-!  Latency-tracking step lemmas. -/

theorem WFLat_clearCnts (s : CollectorState) : WFLat (clearCnts s) := by
  refine ⟨fun c => rfl, fun c => rfl, ?_⟩
  intro p hp
  simp [clearCnts] at hp

theorem track_latCount (s : CollectorState) (st : String) (t : ℚ) (c : String)
    {b : ℚ} (hb : b ∈ latencyBuckets) (hWF : WFLat s) :
    latCount (trackLatency s st t) c b =
      latCount s c b + (if statusLabel st = c ∧ t ≤ b then 1 else 0) := by
  obtain ⟨hs1, hs2, hbk⟩ := hWF
  by_cases h : hasKey s.latency_counts (statusLabel st)
  · have hbl : (aget [] s.latency_counts (statusLabel st)).map Prod.fst = latencyBuckets :=
      hbk _ (mem_of_hasKey [] h)
    have hkb : hasKey (aget [] s.latency_counts (statusLabel st)) b = true := by
      rw [hasKey_iff_mem_fst, hbl]
      exact hb
    simp only [trackLatency, latCount, h, if_true]
    rw [aget_amod]
    by_cases hc : c = statusLabel st
    · rw [if_pos hc, if_pos h, aget_bumpBuckets, hc]
      by_cases ht : t ≤ b
      · simp [hkb, ht]
      · simp [ht]
    · rw [if_neg hc]
      have hcc : ¬ (statusLabel st = c ∧ t ≤ b) := fun hh => hc hh.1.symm
      simp [latCount, hcc]
  · simp only [trackLatency, latCount, h, Bool.false_eq_true, if_false]
    rw [aget_amod]
    by_cases hc : c = statusLabel st
    · have hk2 : hasKey (s.latency_counts ++ [(statusLabel st, initBuckets)])
          (statusLabel st) = true := by
        rw [hasKey_append, Bool.or_eq_true]
        right
        simp [hasKey]
      rw [if_pos hc, if_pos hk2, aget_append, if_neg (by simp [h]), aget_bumpBuckets]
      have hz : aget [] s.latency_counts (statusLabel st) = ([] : List (ℚ × Nat)) :=
        aget_of_hasKey_false [] (by simp [h])
      simp [aget, hasKey_initBuckets, aget_initBuckets, hb, hc, hz]
    · rw [if_neg hc, aget_append]
      have hone : aget [] [(statusLabel st, initBuckets)] c = ([] : List (ℚ × Nat)) := by
        simp [aget, hc]
      have hcc : ¬ (statusLabel st = c ∧ t ≤ b) := fun hh => hc hh.1.symm
      by_cases hkc : hasKey s.latency_counts c
      · simp [hkc, latCount, hcc]
      · rw [if_neg hkc, hone]
        simp [latCount, hcc, aget_of_hasKey_false [] (by simp [hkc] : hasKey s.latency_counts c = false), aget]

theorem track_latTotal (s : CollectorState) (st : String) (t : ℚ) (c : String)
    (hWF : WFLat s) :
    latTotal (trackLatency s st t) c =
      latTotal s c + (if statusLabel st = c then 1 else 0) := by
  obtain ⟨hs1, hs2, hbk⟩ := hWF
  by_cases h : hasKey s.latency_counts (statusLabel st)
  · have ht : hasKey s.latency_total_counts (statusLabel st) = true := by
      rw [hs2]
      exact h
    simp only [trackLatency, latTotal, h, if_true]
    rw [aget_amod]
    by_cases hc : c = statusLabel st
    · simp [hc, ht]
    · have hcc : ¬ (statusLabel st = c) := fun hh => hc hh.symm
      simp [hc, hcc]
  · have ht : hasKey s.latency_total_counts (statusLabel st) = false := by
      rw [hs2]
      simp [h]
    simp only [trackLatency, latTotal, h, Bool.false_eq_true, if_false]
    rw [aget_amod]
    by_cases hc : c = statusLabel st
    · have hk2 : hasKey (s.latency_total_counts ++ [(statusLabel st, 0)])
          (statusLabel st) = true := by
        rw [hasKey_append, Bool.or_eq_true]
        right
        simp [hasKey]
      rw [if_pos hc, if_pos hk2, aget_append, if_neg (by simp [ht])]
      have hz : aget 0 s.latency_total_counts (statusLabel st) = 0 :=
        aget_of_hasKey_false 0 ht
      simp [aget, hc, hz]
    · rw [if_neg hc, aget_append]
      have hcc : ¬ (statusLabel st = c) := fun hh => hc hh.symm
      by_cases hkc : hasKey s.latency_total_counts c
      · simp [hkc, latTotal, hcc]
      · rw [if_neg hkc]
        simp [latTotal, hcc, aget_of_hasKey_false 0 (by simp [hkc] : hasKey s.latency_total_counts c = false), aget, hc]

theorem track_latSum (s : CollectorState) (st : String) (t : ℚ) (c : String)
    (hWF : WFLat s) :
    latSum (trackLatency s st t) c =
      latSum s c + (if statusLabel st = c then t else 0) := by
  obtain ⟨hs1, hs2, hbk⟩ := hWF
  by_cases h : hasKey s.latency_counts (statusLabel st)
  · have ht : hasKey s.latency_sums (statusLabel st) = true := by
      rw [hs1]
      exact h
    simp only [trackLatency, latSum, h, if_true]
    rw [aget_amod]
    by_cases hc : c = statusLabel st
    · simp [hc, ht]
    · have hcc : ¬ (statusLabel st = c) := fun hh => hc hh.symm
      simp [hc, hcc]
  · have ht : hasKey s.latency_sums (statusLabel st) = false := by
      rw [hs1]
      simp [h]
    simp only [trackLatency, latSum, h, Bool.false_eq_true, if_false]
    rw [aget_amod]
    by_cases hc : c = statusLabel st
    · have hk2 : hasKey (s.latency_sums ++ [(statusLabel st, 0)])
          (statusLabel st) = true := by
        rw [hasKey_append, Bool.or_eq_true]
        right
        simp [hasKey]
      rw [if_pos hc, if_pos hk2, aget_append, if_neg (by simp [ht])]
      have hz : aget 0 s.latency_sums (statusLabel st) = 0 :=
        aget_of_hasKey_false 0 ht
      simp [aget, hc, hz]
    · rw [if_neg hc, aget_append]
      have hcc : ¬ (statusLabel st = c) := fun hh => hc hh.symm
      by_cases hkc : hasKey s.latency_sums c
      · simp [hkc, latSum, hcc]
      · rw [if_neg hkc]
        simp [latSum, hcc, aget_of_hasKey_false 0 (by simp [hkc] : hasKey s.latency_sums c = false), aget, hc]

theorem track_sumTotals (s : CollectorState) (st : String) (t : ℚ)
    (hWF : WFLat s) :
    sumTotals (trackLatency s st t) = sumTotals s + 1 := by
  obtain ⟨hs1, hs2, hbk⟩ := hWF
  by_cases h : hasKey s.latency_counts (statusLabel st)
  · have ht : hasKey s.latency_total_counts (statusLabel st) = true := by
      rw [hs2]
      exact h
    simp only [trackLatency, sumTotals, h, if_true]
    exact sum_snd_amod_add 1 ht
  · have ht : hasKey s.latency_total_counts (statusLabel st) = false := by
      rw [hs2]
      simp [h]
    have hk2 : hasKey (s.latency_total_counts ++ [(statusLabel st, 0)])
        (statusLabel st) = true := by
      rw [hasKey_append, Bool.or_eq_true]
      right
      simp [hasKey]
    simp only [trackLatency, sumTotals, h, Bool.false_eq_true, if_false]
    rw [sum_snd_amod_add 1 hk2]
    simp

theorem track_WFLat (s : CollectorState) (st : String) (t : ℚ) (hWF : WFLat s) :
    WFLat (trackLatency s st t) := by
  obtain ⟨hs1, hs2, hbk⟩ := hWF
  by_cases h : hasKey s.latency_counts (statusLabel st)
  · refine ⟨?_, ?_, ?_⟩
    · intro c
      simp only [trackLatency, h, if_true]
      rw [hasKey_amod, hasKey_amod]
      exact hs1 c
    · intro c
      simp only [trackLatency, h, if_true]
      rw [hasKey_amod, hasKey_amod]
      exact hs2 c
    · simp only [trackLatency, h, if_true]
      exact @mem_amod_snd _ _ _ (fun v => List.map Prod.fst v = latencyBuckets) _ _ _
        hbk (fun v hv => by simpa [map_fst_bumpBuckets] using hv)
  · refine ⟨?_, ?_, ?_⟩
    · intro c
      simp only [trackLatency, h, Bool.false_eq_true, if_false]
      rw [hasKey_amod, hasKey_amod, hasKey_append, hasKey_append, hs1 c]
      by_cases hc : c = statusLabel st <;> simp [hasKey, hc]
    · intro c
      simp only [trackLatency, h, Bool.false_eq_true, if_false]
      rw [hasKey_amod, hasKey_amod, hasKey_append, hasKey_append, hs2 c]
      by_cases hc : c = statusLabel st <;> simp [hasKey, hc]
    · simp only [trackLatency, h, Bool.false_eq_true, if_false]
      refine @mem_amod_snd _ _ _ (fun v => List.map Prod.fst v = latencyBuckets) _ _ _
        ?_ (fun v hv => by simpa [map_fst_bumpBuckets] using hv)
      intro p hp
      rcases List.mem_append.mp hp with hp | hp
      · exact hbk p hp
      · simp at hp
        rw [hp]
        exact map_fst_initBuckets

/-!  Per-query step lemmas for `processQuery`. -/

theorem latStep_fields (s : CollectorState) (q : Query) :
    (latStep s q).type_cnt = s.type_cnt ∧ (latStep s q).status_cnt = s.status_cnt ∧
    (latStep s q).reply_cnt = s.reply_cnt ∧ (latStep s q).client_cnt = s.client_cnt ∧
    (latStep s q).upstream_cnt = s.upstream_cnt ∧
    (latStep s q).timeout_cnt = s.timeout_cnt ∧
    (latStep s q).error_cnt = s.error_cnt ∧
    (latStep s q).total_queries_processed = s.total_queries_processed := by
  unfold latStep
  rcases hq : q.replyTime with _ | t <;> simp only [hq]
  · simp
  · by_cases ht : (0:ℚ) ≤ t
    · simp only [if_pos ht]
      unfold trackLatency
      by_cases h : hasKey s.latency_counts (statusLabel q.status) <;> simp [h]
    · simp only [if_neg ht]
      simp

theorem pq_fields (rn : String → String) (s : CollectorState) (q : Query) :
    (∀ k, aget 0 (processQuery rn s q).type_cnt k =
      aget 0 s.type_cnt k + (if k = q.qtype then 1 else 0)) ∧
    (∀ k, aget 0 (processQuery rn s q).status_cnt k =
      aget 0 s.status_cnt k + (if k = q.status then 1 else 0)) ∧
    (∀ k, aget 0 (processQuery rn s q).reply_cnt k =
      aget 0 s.reply_cnt k + (if k = q.replyType then 1 else 0)) ∧
    (∀ k, aget 0 (processQuery rn s q).client_cnt k =
      aget 0 s.client_cnt k + (if k = rn q.clientIp then 1 else 0)) ∧
    (∀ k, aget 0 (processQuery rn s q).upstream_cnt k =
      aget 0 s.upstream_cnt k + (if k = effUpstream q.upstream q.status then 1 else 0)) ∧
    (∀ k, aget 0 (processQuery rn s q).error_cnt k =
      aget 0 s.error_cnt k +
        (if (q.rcode ≠ "" ∧ q.rcode ≠ "NOERROR") ∧ k = q.rcode then 1 else 0)) ∧
    ((processQuery rn s q).timeout_cnt =
      s.timeout_cnt + (if q.rcode = "TIMEOUT" ∨ q.status = "TIMEOUT" then 1 else 0)) ∧
    ((processQuery rn s q).total_queries_processed = s.total_queries_processed + 1) := by
  obtain ⟨e1, e2, e3, e4, e5, e6, e7, e8⟩ := latStep_fields (tablesStep rn s q) q
  unfold processQuery
  by_cases h4 : q.rcode = "TIMEOUT" ∨ q.status = "TIMEOUT" <;>
    by_cases h5 : q.rcode ≠ "" ∧ q.rcode ≠ "NOERROR" <;>
      simp only [timeoutStep, totalStep, errorStep, h4, h5, if_true, if_false,
        ite_true, ite_false, e1, e2, e3, e4, e5, e6, e7, e8] <;>
      refine ⟨?_, ?_, ?_, ?_, ?_, ?_, ?_, ?_⟩ <;>
      simp [tablesStep, e1, e2, e3, e4, e5, e6, e7, e8, aget_incr1, h4, h5]

theorem pq_WFLat (rn : String → String) (s : CollectorState) (q : Query)
    (h : WFLat s) : WFLat (processQuery rn s q) := by
  have h1 : WFLat (tablesStep rn s q) := h
  have h2 : WFLat (latStep (tablesStep rn s q) q) := by
    unfold latStep
    rcases hq : q.replyTime with _ | t <;> simp only [hq]
    · exact h1
    · by_cases ht : (0:ℚ) ≤ t
      · simp only [if_pos ht]
        exact track_WFLat _ _ _ h1
      · simp only [if_neg ht]
        exact h1
  unfold processQuery errorStep totalStep timeoutStep
  split_ifs <;> exact h2

theorem pq_latCount (rn : String → String) (s : CollectorState) (q : Query)
    (c : String) {b : ℚ} (hb : b ∈ latencyBuckets) (hWF : WFLat s) :
    latCount (processQuery rn s q) c b =
      latCount s c b +
        (if qValid q = true ∧ statusLabel q.status = c ∧ qTime q ≤ b then 1 else 0) := by
  have h1 : WFLat (tablesStep rn s q) := hWF
  have hfront : ∀ x : CollectorState,
      latCount (errorStep (totalStep (timeoutStep x q)) q) c b = latCount x c b := by
    intro x
    by_cases h4 : q.rcode = "TIMEOUT" ∨ q.status = "TIMEOUT" <;>
      by_cases h5 : q.rcode ≠ "" ∧ q.rcode ≠ "NOERROR" <;>
        simp [timeoutStep, totalStep, errorStep, h4, h5, latCount]
  unfold processQuery
  rw [hfront]
  unfold latStep
  rcases hq : q.replyTime with _ | t <;> simp only [hq]
  · simp [qValid, hq, latCount, tablesStep]
  · by_cases ht : (0:ℚ) ≤ t
    · simp only [if_pos ht]
      rw [track_latCount _ _ _ _ hb h1]
      simp [latCount, tablesStep, qValid, qTime, hq, ht]
    · simp only [if_neg ht]
      simp [latCount, tablesStep, qValid, qTime, hq, ht]

theorem pq_latTotal (rn : String → String) (s : CollectorState) (q : Query)
    (c : String) (hWF : WFLat s) :
    latTotal (processQuery rn s q) c =
      latTotal s c + (if qValid q = true ∧ statusLabel q.status = c then 1 else 0) := by
  have h1 : WFLat (tablesStep rn s q) := hWF
  have hfront : ∀ x : CollectorState,
      latTotal (errorStep (totalStep (timeoutStep x q)) q) c = latTotal x c := by
    intro x
    by_cases h4 : q.rcode = "TIMEOUT" ∨ q.status = "TIMEOUT" <;>
      by_cases h5 : q.rcode ≠ "" ∧ q.rcode ≠ "NOERROR" <;>
        simp [timeoutStep, totalStep, errorStep, h4, h5, latTotal]
  unfold processQuery
  rw [hfront]
  unfold latStep
  rcases hq : q.replyTime with _ | t <;> simp only [hq]
  · simp [qValid, hq, latTotal, tablesStep]
  · by_cases ht : (0:ℚ) ≤ t
    · simp only [if_pos ht]
      rw [track_latTotal _ _ _ _ h1]
      simp [latTotal, tablesStep, qValid, qTime, hq, ht]
    · simp only [if_neg ht]
      simp [latTotal, tablesStep, qValid, qTime, hq, ht]

theorem pq_latSum (rn : String → String) (s : CollectorState) (q : Query)
    (c : String) (hWF : WFLat s) :
    latSum (processQuery rn s q) c =
      latSum s c + (if qValid q = true ∧ statusLabel q.status = c then qTime q else 0) := by
  have h1 : WFLat (tablesStep rn s q) := hWF
  have hfront : ∀ x : CollectorState,
      latSum (errorStep (totalStep (timeoutStep x q)) q) c = latSum x c := by
    intro x
    by_cases h4 : q.rcode = "TIMEOUT" ∨ q.status = "TIMEOUT" <;>
      by_cases h5 : q.rcode ≠ "" ∧ q.rcode ≠ "NOERROR" <;>
        simp [timeoutStep, totalStep, errorStep, h4, h5, latSum]
  unfold processQuery
  rw [hfront]
  unfold latStep
  rcases hq : q.replyTime with _ | t <;> simp only [hq]
  · simp [qValid, hq, latSum, tablesStep]
  · by_cases ht : (0:ℚ) ≤ t
    · simp only [if_pos ht]
      rw [track_latSum _ _ _ _ h1]
      simp [latSum, tablesStep, qValid, qTime, hq, ht]
    · simp only [if_neg ht]
      simp [latSum, tablesStep, qValid, qTime, hq, ht]

theorem pq_sumTotals (rn : String → String) (s : CollectorState) (q : Query)
    (hWF : WFLat s) :
    sumTotals (processQuery rn s q) =
      sumTotals s + (if qValid q = true then 1 else 0) := by
  have h1 : WFLat (tablesStep rn s q) := hWF
  have hfront : ∀ x : CollectorState,
      sumTotals (errorStep (totalStep (timeoutStep x q)) q) = sumTotals x := by
    intro x
    by_cases h4 : q.rcode = "TIMEOUT" ∨ q.status = "TIMEOUT" <;>
      by_cases h5 : q.rcode ≠ "" ∧ q.rcode ≠ "NOERROR" <;>
        simp [timeoutStep, totalStep, errorStep, h4, h5, sumTotals]
  unfold processQuery
  rw [hfront]
  unfold latStep
  rcases hq : q.replyTime with _ | t <;> simp only [hq]
  · simp [qValid, hq, sumTotals, tablesStep]
  · by_cases ht : (0:ℚ) ≤ t
    · simp only [if_pos ht]
      rw [track_sumTotals _ _ _ h1]
      simp [sumTotals, tablesStep, qValid, qTime, hq, ht]
    · simp only [if_neg ht]
      simp [sumTotals, tablesStep, qValid, qTime, hq, ht]

theorem pq_latency_unchanged (rn : String → String) (s : CollectorState) (q : Query)
    (h : qValid q = false) :
    (processQuery rn s q).latency_counts = s.latency_counts ∧
    (processQuery rn s q).latency_sums = s.latency_sums ∧
    (processQuery rn s q).latency_total_counts = s.latency_total_counts := by
  have hfront : ∀ x : CollectorState,
      (errorStep (totalStep (timeoutStep x q)) q).latency_counts = x.latency_counts ∧
      (errorStep (totalStep (timeoutStep x q)) q).latency_sums = x.latency_sums ∧
      (errorStep (totalStep (timeoutStep x q)) q).latency_total_counts =
        x.latency_total_counts := by
    intro x
    by_cases h4 : q.rcode = "TIMEOUT" ∨ q.status = "TIMEOUT" <;>
      by_cases h5 : q.rcode ≠ "" ∧ q.rcode ≠ "NOERROR" <;>
        simp [timeoutStep, totalStep, errorStep, h4, h5]
  have hlat : latStep (tablesStep rn s q) q = tablesStep rn s q := by
    unfold latStep
    rcases hq : q.replyTime with _ | t <;> simp only [hq]
    have ht : ¬ (0:ℚ) ≤ t := by
      simp [qValid, hq] at h
      exact not_le.mpr h
    simp [ht]
  unfold processQuery
  rw [hlat]
  exact hfront (tablesStep rn s q)

/-!  Cycle-level characterization of `ingest`. -/

theorem ingest_tables (rn : String → String) (qs : List Query) : ∀ s : CollectorState,
    (∀ k, aget 0 (ingest rn s qs).type_cnt k =
      aget 0 s.type_cnt k + countKeyBy (fun q => q.qtype) qs k) ∧
    (∀ k, aget 0 (ingest rn s qs).status_cnt k =
      aget 0 s.status_cnt k + countKeyBy (fun q => q.status) qs k) ∧
    (∀ k, aget 0 (ingest rn s qs).reply_cnt k =
      aget 0 s.reply_cnt k + countKeyBy (fun q => q.replyType) qs k) ∧
    (∀ k, aget 0 (ingest rn s qs).client_cnt k =
      aget 0 s.client_cnt k + countKeyBy (fun q => rn q.clientIp) qs k) ∧
    (∀ k, aget 0 (ingest rn s qs).upstream_cnt k =
      aget 0 s.upstream_cnt k + countKeyBy (fun q => effUpstream q.upstream q.status) qs k) ∧
    (∀ k, aget 0 (ingest rn s qs).error_cnt k = aget 0 s.error_cnt k + countErr qs k) ∧
    ((ingest rn s qs).timeout_cnt = s.timeout_cnt + countTimeout qs) ∧
    ((ingest rn s qs).total_queries_processed =
      s.total_queries_processed + qs.length) := by
  induction qs with
  | nil =>
    intro s
    refine ⟨?_, ?_, ?_, ?_, ?_, ?_, ?_, ?_⟩ <;>
      simp [ingest, countKeyBy, countErr, countTimeout]
  | cons q qs ih =>
    intro s
    obtain ⟨it, ist, irp, icl, iup, ierr, itm, itot⟩ := ih (processQuery rn s q)
    obtain ⟨p1, p2, p3, p4, p5, p6, p7, p8⟩ := pq_fields rn s q
    have hstep : ingest rn s (q :: qs) = ingest rn (processQuery rn s q) qs := rfl
    refine ⟨?_, ?_, ?_, ?_, ?_, ?_, ?_, ?_⟩
    · intro k
      rw [hstep, it k, p1 k]
      by_cases hk : k = q.qtype <;>
        simp [countKeyBy, List.filter_cons, hk, eq_comm] <;> omega
    · intro k
      rw [hstep, ist k, p2 k]
      by_cases hk : k = q.status <;>
        simp [countKeyBy, List.filter_cons, hk, eq_comm] <;> omega
    · intro k
      rw [hstep, irp k, p3 k]
      by_cases hk : k = q.replyType <;>
        simp [countKeyBy, List.filter_cons, hk, eq_comm] <;> omega
    · intro k
      rw [hstep, icl k, p4 k]
      by_cases hk : k = rn q.clientIp <;>
        simp [countKeyBy, List.filter_cons, hk, eq_comm] <;> omega
    · intro k
      rw [hstep, iup k, p5 k]
      by_cases hk : k = effUpstream q.upstream q.status <;>
        simp [countKeyBy, List.filter_cons, hk, eq_comm] <;> omega
    · intro k
      rw [hstep, ierr k, p6 k]
      have hcons : countErr (q :: qs) k =
          (if (q.rcode ≠ "" ∧ q.rcode ≠ "NOERROR") ∧ q.rcode = k then 1 else 0) +
            countErr qs k := by
        unfold countErr
        by_cases hc : (q.rcode ≠ "" ∧ q.rcode ≠ "NOERROR") ∧ q.rcode = k
        · rw [if_pos hc, List.filter_cons, if_pos (by simpa using hc)]
          simp [Nat.add_comm]
        · rw [if_neg hc, List.filter_cons, if_neg (by simpa using hc)]
          simp
      rw [hcons]
      by_cases hk : k = q.rcode
      · subst hk
        omega
      · have hk2 : ¬ q.rcode = k := fun h => hk h.symm
        simp [hk, hk2]
    · rw [hstep, itm, p7]
      by_cases h4 : q.rcode = "TIMEOUT" ∨ q.status = "TIMEOUT" <;>
        simp [countTimeout, List.filter_cons, h4] <;> omega
    · rw [hstep, itot, p8]
      simp
      omega

theorem ingest_lat (rn : String → String) (qs : List Query) : ∀ s : CollectorState,
    WFLat s →
    WFLat (ingest rn s qs) ∧
    (∀ c, ∀ b ∈ latencyBuckets,
      latCount (ingest rn s qs) c b = latCount s c b + countObsLe qs c b) ∧
    (∀ c, latTotal (ingest rn s qs) c = latTotal s c + (classObs qs c).length) ∧
    (∀ c, latSum (ingest rn s qs) c = latSum s c + (classObs qs c).sum) ∧
    (sumTotals (ingest rn s qs) = sumTotals s + (qs.filter qValid).length) := by
  induction qs with
  | nil =>
    intro s hWF
    refine ⟨hWF, ?_, ?_, ?_, ?_⟩ <;>
      simp [ingest, countObsLe, classObs]
  | cons q qs ih =>
    intro s hWF
    have hWF2 := pq_WFLat rn s q hWF
    obtain ⟨iWF, ilatC, ilatT, ilatS, isum⟩ := ih (processQuery rn s q) hWF2
    have hstep : ingest rn s (q :: qs) = ingest rn (processQuery rn s q) qs := rfl
    refine ⟨by rw [hstep]; exact iWF, ?_, ?_, ?_, ?_⟩
    · intro c b hb
      rw [hstep, ilatC c b hb, pq_latCount rn s q c hb hWF]
      by_cases h1 : qValid q = true <;>
        by_cases h2 : statusLabel q.status = c <;>
          by_cases h3 : qTime q ≤ b <;>
            simp [countObsLe, obsLeP, obsP, List.filter_cons, h1, h2, h3] <;> omega
    · intro c
      rw [hstep, ilatT c, pq_latTotal rn s q c hWF]
      by_cases h1 : qValid q = true <;>
        by_cases h2 : statusLabel q.status = c <;>
          simp [classObs, obsP, List.filter_cons, h1, h2] <;> omega
    · intro c
      rw [hstep, ilatS c, pq_latSum rn s q c hWF]
      by_cases h1 : qValid q = true <;>
        by_cases h2 : statusLabel q.status = c <;>
          simp [classObs, obsP, List.filter_cons, h1, h2] <;> ring
    · rw [hstep, isum, pq_sumTotals rn s q hWF]
      by_cases h1 : qValid q = true <;>
        simp [List.filter_cons, h1] <;> omega

/-!  Lemmas about `format_for_loki`. -/

theorem aget_addToStream (s : List (StreamKey × List (Int × LogRecord)))
    (k0 k : StreamKey) (v : Int × LogRecord) :
    aget [] (addToStream s k0 v) k = aget [] s k ++ (if k = k0 then [v] else []) := by
  unfold addToStream
  by_cases h : hasKey s k0
  · rw [if_pos h, aget_amod]
    by_cases hk : k = k0
    · simp [hk, h]
    · simp [hk]
  · rw [if_neg h, aget_append]
    by_cases hs : hasKey s k
    · have hk : ¬ k = k0 := fun he => h (he ▸ hs)
      simp [hs, hk]
    · rw [if_neg hs]
      have hz : aget [] s k = ([] : List (Int × LogRecord)) :=
        aget_of_hasKey_false [] (by simp [hs])
      rw [hz]
      by_cases hk : k = k0 <;> simp [aget, hk]

theorem map_fst_addToStream (s : List (StreamKey × List (Int × LogRecord)))
    (k0 : StreamKey) (v : Int × LogRecord) :
    (addToStream s k0 v).map Prod.fst =
      (if k0 ∈ s.map Prod.fst then s.map Prod.fst else s.map Prod.fst ++ [k0]) := by
  unfold addToStream
  by_cases h : hasKey s k0
  · rw [if_pos h, map_fst_amod, if_pos ((hasKey_iff_mem_fst s k0).mp h)]
  · rw [if_neg h, if_neg (fun hm => h ((hasKey_iff_mem_fst s k0).mpr hm))]
    simp

theorem init_le_foldl_max : ∀ (l : List Int) (a : Int), a ≤ l.foldl max a := by
  intro l
  induction l with
  | nil => intro a; exact le_refl a
  | cons y t ih =>
    intro a
    exact le_trans (le_max_left a y) (ih (max a y))

theorem mem_le_foldl_max {x : Int} : ∀ (l : List Int) (a : Int), x ∈ l → x ≤ l.foldl max a := by
  intro l
  induction l with
  | nil => intro a hx; simp at hx
  | cons y t ih =>
    intro a hx
    rcases List.mem_cons.mp hx with hx | hx
    · subst hx
      exact le_trans (le_max_right a x) (init_le_foldl_max t (max a x))
    · exact ih (max a y) hx

theorem format_go (host : String) (rn : String → String) (qs : List LogRecord) :
    ∀ (acc : List (StreamKey × List (Int × LogRecord))) (m : Int),
    (∀ k, aget [] (qs.foldl (formatStep host rn) (acc, m)).1 k =
      aget [] acc k ++
        ((qs.filter (fun r => (tsOf r).isSome && decide (mkKey host rn r = k))).map
          (fun r => ((tsOf r).getD 0 * 1000000000, r)))) ∧
    ((qs.foldl (formatStep host rn) (acc, m)).1.map Prod.fst =
      ((qs.filter (fun r => (tsOf r).isSome)).map (mkKey host rn)).foldl
        (fun ks k => if k ∈ ks then ks else ks ++ [k]) (acc.map Prod.fst)) ∧
    ((qs.foldl (formatStep host rn) (acc, m)).2 = (qs.filterMap tsOf).foldl max m) := by
  induction qs with
  | nil =>
    intro acc m
    refine ⟨?_, ?_, ?_⟩ <;> simp
  | cons r qs ih =>
    intro acc m
    rcases ht : tsOf r with _ | t
    · have hstep : formatStep host rn (acc, m) r = (acc, m) := by
        simp [formatStep, ht]
      refine ⟨?_, ?_, ?_⟩
      · intro k
        rw [List.foldl_cons, hstep, (ih acc m).1 k]
        simp [List.filter_cons, ht]
      · rw [List.foldl_cons, hstep, (ih acc m).2.1]
        simp [List.filter_cons, ht]
      · rw [List.foldl_cons, hstep, (ih acc m).2.2]
        simp [List.filterMap_cons, ht]
    · have hstep : formatStep host rn (acc, m) r =
          (addToStream acc (mkKey host rn r) (t * 1000000000, r), max m t) := by
        simp [formatStep, ht]
      refine ⟨?_, ?_, ?_⟩
      · intro k
        rw [List.foldl_cons, hstep,
          (ih (addToStream acc (mkKey host rn r) (t * 1000000000, r)) (max m t)).1 k,
          aget_addToStream]
        by_cases hk : k = mkKey host rn r
        · simp [List.filter_cons, ht, hk]
        · have hk2 : ¬ mkKey host rn r = k := fun h => hk h.symm
          simp [List.filter_cons, ht, hk, hk2]
      · rw [List.foldl_cons, hstep,
          (ih (addToStream acc (mkKey host rn r) (t * 1000000000, r)) (max m t)).2.1,
          map_fst_addToStream]
        simp [List.filter_cons, ht]
      · rw [List.foldl_cons, hstep,
          (ih (addToStream acc (mkKey host rn r) (t * 1000000000, r)) (max m t)).2.2]
        simp [List.filterMap_cons, ht]

theorem format_all_skip (host : String) (rn : String → String) (qs : List LogRecord)
    (h : ∀ r ∈ qs, tsOf r = none) :
    ∀ acc, qs.foldl (formatStep host rn) acc = acc := by
  induction qs with
  | nil => intro acc; rfl
  | cons r qs ih =>
    intro acc
    rw [List.foldl_cons]
    have hr : tsOf r = none := h r (by simp)
    have hstep : formatStep host rn acc r = acc := by
      cases acc
      simp [formatStep, hr]
    rw [hstep]
    exact ih (fun r hr => h r (by simp [hr])) acc

theorem format_nonempty_has_ts (host : String) (rn : String → String)
    (qs : List LogRecord) (h : (formatForLoki host rn qs).1 ≠ []) :
    ∃ r ∈ qs, ∃ t, tsOf r = some t := by
  by_contra hc
  push_neg at hc
  have hall : ∀ r ∈ qs, tsOf r = none := by
    intro r hr
    rcases hx : tsOf r with _ | t
    · rfl
    · exact absurd hx (hc r hr t)
  have := format_all_skip host rn qs hall ([], 0)
  unfold formatForLoki at h
  rw [this] at h
  exact h rfl

theorem format_max_ge (host : String) (rn : String → String) (qs : List LogRecord)
    {r : LogRecord} {t : Int} (hr : r ∈ qs) (ht : tsOf r = some t) :
    t ≤ (formatForLoki host rn qs).2 := by
  unfold formatForLoki
  rw [(format_go host rn qs [] 0).2.2]
  exact mem_le_foldl_max _ 0 (List.mem_filterMap.mpr ⟨r, hr, ht⟩)

/-!  Small generic helpers for the claim theorems. -/

theorem filter_length_split {α : Type} (p : α → Bool) (l : List α) :
    (l.filter p).length + (l.filter (fun a => !p a)).length = l.length := by
  induction l with
  | nil => rfl
  | cons x t ih =>
    by_cases hx : p x <;> simp [List.filter_cons, hx] <;> omega

/-!  Claim theorems. -/

/-- C1, counterexample: with a leftover nonzero count for type "A" and an
empty record set, reset-then-ingest keeps the key "A" as a zero-valued entry,
while the same cycle from a fresh state yields an empty table — the snapshot
is not independent of the prior cycle's state and carries a key not derived
from R. -/
theorem c1_counterexample :
    (cycleState (fun ip => ip) leftoverState []).type_cnt = [("A", 0)] ∧
    (cycleState (fun ip => ip) initState []).type_cnt = [] := by
  constructor <;> rfl

/-- C1, amended: after `clear_cnts` followed by ingesting record set R, every
value readable from the snapshot — each of the five tables pointwise, the
timeout count, the error table pointwise, total-processed, and the latency
accumulators — is exactly the value derived from R alone (in particular it is
independent of the prior state); however, keys that held nonzero counts before
the reset survive as zero-valued entries of the tables (see the
counterexample), so only the values, not the key sets, are reset. -/
theorem c1_reset_semantics (rn : String → String) (S : CollectorState) (R : List Query) :
    (∀ k, aget 0 (cycleState rn S R).type_cnt k = countKeyBy (fun q => q.qtype) R k) ∧
    (∀ k, aget 0 (cycleState rn S R).status_cnt k = countKeyBy (fun q => q.status) R k) ∧
    (∀ k, aget 0 (cycleState rn S R).reply_cnt k = countKeyBy (fun q => q.replyType) R k) ∧
    (∀ k, aget 0 (cycleState rn S R).client_cnt k = countKeyBy (fun q => rn q.clientIp) R k) ∧
    (∀ k, aget 0 (cycleState rn S R).upstream_cnt k =
      countKeyBy (fun q => effUpstream q.upstream q.status) R k) ∧
    (∀ k, aget 0 (cycleState rn S R).error_cnt k = countErr R k) ∧
    ((cycleState rn S R).timeout_cnt = countTimeout R) ∧
    ((cycleState rn S R).total_queries_processed = R.length) ∧
    (∀ c, ∀ b ∈ latencyBuckets, latCount (cycleState rn S R) c b = countObsLe R c b) ∧
    (∀ c, latTotal (cycleState rn S R) c = (classObs R c).length) ∧
    (∀ c, latSum (cycleState rn S R) c = (classObs R c).sum) := by
  obtain ⟨t1, t2, t3, t4, t5, t6, t7, t8⟩ := ingest_tables rn R (clearCnts S)
  obtain ⟨lWF, l1, l2, l3, l4⟩ := ingest_lat rn R (clearCnts S) (WFLat_clearCnts S)
  refine ⟨?_, ?_, ?_, ?_, ?_, ?_, ?_, ?_, ?_, ?_, ?_⟩
  · intro k
    simpa [cycleState, clearCnts, aget_clearTable] using t1 k
  · intro k
    simpa [cycleState, clearCnts, aget_clearTable] using t2 k
  · intro k
    simpa [cycleState, clearCnts, aget_clearTable] using t3 k
  · intro k
    simpa [cycleState, clearCnts, aget_clearTable] using t4 k
  · intro k
    simpa [cycleState, clearCnts, aget_clearTable] using t5 k
  · intro k
    simpa [cycleState, clearCnts, aget] using t6 k
  · simpa [cycleState, clearCnts] using t7
  · simpa [cycleState, clearCnts] using t8
  · intro c b hb
    simpa [cycleState, clearCnts, latCount, aget] using l1 c b hb
  · intro c
    simpa [cycleState, clearCnts, latTotal, aget] using l2 c
  · intro c
    simpa [cycleState, clearCnts, latSum, aget] using l3 c

/-- C1, witness: the amended theorem evaluated on a concrete leftover state,
a one-record batch and a concrete bucket boundary. -/
theorem c1_witness :
    latCount (cycleState (fun ip => ip) leftoverState [qForwarded]) "forwarded" (1/100) =
      countObsLe [qForwarded] "forwarded" (1/100) :=
  (c1_reset_semantics (fun ip => ip) leftoverState
    [qForwarded]).2.2.2.2.2.2.2.2.1 "forwarded" (1/100) (by norm_num [latencyBuckets])

/-- C2, counterexample: when the summary fetch succeeds but the upstreams
fetch raises, the scrape still emits the six summary families — emission is
not all-or-nothing. -/
theorem c2_counterexample :
    collectFamilies (fun ip => ip) initState (some ()) none none [] ≠ [] := by
  simp [collectFamilies, summaryFamilies]

/-- C2, amended: emission is truncated at the failing fetch, not withheld: a
scrape whose first fetch (the summary) fails emits nothing; a scrape whose
upstreams fetch fails emits exactly the six summary families already yielded;
a scrape whose queries fetch fails emits the six summary families plus the
upstream-count family; and only a fully successful scrape emits the whole
family list. -/
theorem c2_partial_emission (rn : String → String) (s : CollectorState)
    (sys : List String) :
    (∀ u qr, collectFamilies rn s none u qr sys = []) ∧
    (∀ qr, collectFamilies rn s (some ()) none qr sys = summaryFamilies) ∧
    (collectFamilies rn s (some ()) (some ()) none sys =
      summaryFamilies ++ ["pihole_query_upstream_count"]) ∧
    (∀ qs, collectFamilies rn s (some ()) (some ()) (some qs) sys =
      summaryFamilies ++ "pihole_query_upstream_count" ::
        (minuteFamilies ++
          (if (ingest rn (clearCnts s) qs).latency_counts ≠ [] then
            ["pihole_dns_latency_seconds_1m"] else []) ++ sys)) := by
  refine ⟨fun u qr => rfl, fun qr => by simp [collectFamilies], by simp [collectFamilies], fun qs => rfl⟩

/-- C4, counterexample: a record with an absent upstream and status
"FORWARDED" is counted under the synthetic label "None-OTHER", not under
"unknown-other" as the claim states. -/
theorem c4_counterexample :
    aget 0 (processQuery (fun ip => ip) initState qOtherUpstream).upstream_cnt
      "unknown-other" = 0 ∧
    aget 0 (processQuery (fun ip => ip) initState qOtherUpstream).upstream_cnt
      "None-OTHER" = 1 := by
  constructor <;> rfl

/-- C4, amended: for a record whose upstream field is absent, a status of
GRAVITY, CACHE or SPECIAL_DOMAIN is counted under the synthetic upstream
label "None-" followed by the status (as the claim says), while every other
status is counted under the synthetic label "None-OTHER" (not
"unknown-other"). -/
theorem c4_upstream_rewrite (rn : String → String) (s : CollectorState) (q : Query)
    (h : q.upstream = none) :
    ((q.status = "GRAVITY" ∨ q.status = "CACHE" ∨ q.status = "SPECIAL_DOMAIN") →
      aget 0 (processQuery rn s q).upstream_cnt ("None-" ++ q.status) =
        aget 0 s.upstream_cnt ("None-" ++ q.status) + 1) ∧
    (¬ (q.status = "GRAVITY" ∨ q.status = "CACHE" ∨ q.status = "SPECIAL_DOMAIN") →
      aget 0 (processQuery rn s q).upstream_cnt "None-OTHER" =
        aget 0 s.upstream_cnt "None-OTHER" + 1) := by
  have p5 := (pq_fields rn s q).2.2.2.2.1
  constructor
  · intro hc
    have := p5 ("None-" ++ q.status)
    rw [this]
    simp [effUpstream, h, hc]
  · intro hc
    have := p5 "None-OTHER"
    rw [this]
    simp [effUpstream, h, hc]

/-- C4, witness: the amended theorem evaluated on a concrete record with an
absent upstream and status "FORWARDED". -/
theorem c4_witness :
    aget 0 (processQuery (fun ip => ip) initState qOtherUpstream).upstream_cnt
        "None-OTHER" =
      aget 0 initState.upstream_cnt "None-OTHER" + 1 :=
  (c4_upstream_rewrite (fun ip => ip) initState qOtherUpstream rfl).2 (by decide)

/-- C7: the latency classification is total — every status maps to one of the
seven classes; any status outside the fixed seventeen-entry table maps to
"unknown"; and the table itself is as specified. -/
theorem c7_classification_total (s : String) :
    statusLabel s ∈ ["cache", "forwarded", "blocked", "retried",
      "in_progress", "other", "unknown"] ∧
    (s ∉ ["CACHE", "CACHE_STALE", "FORWARDED", "GRAVITY", "REGEX", "DENYLIST",
        "GRAVITY_CNAME", "REGEX_CNAME", "DENYLIST_CNAME", "EXTERNAL_BLOCKED_IP",
        "EXTERNAL_BLOCKED_NULL", "EXTERNAL_BLOCKED_NXRA", "EXTERNAL_BLOCKED_EDE15",
        "SPECIAL_DOMAIN", "RETRIED", "RETRIED_DNSSEC", "IN_PROGRESS", "DBBUSY",
        "UNKNOWN"] → statusLabel s = "unknown") ∧
    (statusLabel "CACHE" = "cache" ∧ statusLabel "CACHE_STALE" = "cache" ∧
     statusLabel "FORWARDED" = "forwarded" ∧
     statusLabel "GRAVITY" = "blocked" ∧ statusLabel "REGEX" = "blocked" ∧
     statusLabel "DENYLIST" = "blocked" ∧ statusLabel "GRAVITY_CNAME" = "blocked" ∧
     statusLabel "REGEX_CNAME" = "blocked" ∧ statusLabel "DENYLIST_CNAME" = "blocked" ∧
     statusLabel "EXTERNAL_BLOCKED_IP" = "blocked" ∧
     statusLabel "EXTERNAL_BLOCKED_NULL" = "blocked" ∧
     statusLabel "EXTERNAL_BLOCKED_NXRA" = "blocked" ∧
     statusLabel "EXTERNAL_BLOCKED_EDE15" = "blocked" ∧
     statusLabel "SPECIAL_DOMAIN" = "blocked" ∧
     statusLabel "RETRIED" = "retried" ∧ statusLabel "RETRIED_DNSSEC" = "retried" ∧
     statusLabel "IN_PROGRESS" = "in_progress" ∧
     statusLabel "DBBUSY" = "other" ∧ statusLabel "UNKNOWN" = "other") := by
  refine ⟨?_, ?_, ?_⟩
  · unfold statusLabel
    split_ifs <;> simp
  · intro h
    simp only [List.mem_cons, List.not_mem_nil, or_false, not_or] at h
    unfold statusLabel
    split_ifs with h1 h2 h3 h4 h5 h6 <;> first
      | rfl
      | (exfalso
         simp only [List.mem_cons, List.not_mem_nil, or_false] at *
         tauto)
  · decide

/-- C7, witness: a status outside the table is classified as "unknown". -/
theorem c7_witness : statusLabel "SOMETHING_ELSE" = "unknown" :=
  (c7_classification_total "SOMETHING_ELSE").2.1 (by decide)

/-- C5: at the end of a cycle, for every latency class the cumulative
histogram invariant holds — the count stored at each configured boundary B is
the number of observations routed to that class with reply time at most B;
the count at the largest boundary (2.5) is at most the class's total
observation count; the exported bucket list pairs every boundary with its
cumulative count and ends with the +∞ bucket carrying exactly the class's
total observation count; and the stored sum is the sum of the class's
observed reply times. -/
theorem c5_histogram_invariant (rn : String → String) (S : CollectorState)
    (R : List Query) :
    (∀ c, ∀ b ∈ latencyBuckets, latCount (cycleState rn S R) c b = countObsLe R c b) ∧
    (∀ c, latCount (cycleState rn S R) c (5/2) ≤ latTotal (cycleState rn S R) c) ∧
    (∀ c, exportBuckets (cycleState rn S R) c =
      latencyBuckets.map (fun b => (some b, countObsLe R c b)) ++
        [(none, (classObs R c).length)]) ∧
    (∀ c, latSum (cycleState rn S R) c = (classObs R c).sum) := by
  obtain ⟨lWF, l1, l2, l3, l4⟩ := ingest_lat rn R (clearCnts S) (WFLat_clearCnts S)
  have hC : ∀ c, ∀ b ∈ latencyBuckets, latCount (cycleState rn S R) c b = countObsLe R c b := by
    intro c b hb
    simpa [cycleState, clearCnts, latCount, aget] using l1 c b hb
  have hT : ∀ c, latTotal (cycleState rn S R) c = (classObs R c).length := by
    intro c
    simpa [cycleState, clearCnts, latTotal, aget] using l2 c
  refine ⟨hC, ?_, ?_, ?_⟩
  · intro c
    rw [hC c (5/2) (by norm_num [latencyBuckets]), hT c]
    have hsub : List.Sublist (R.filter (obsLeP c (5/2))) (R.filter (obsP c)) :=
      List.monotone_filter_right R (fun q hq => by
        simp only [obsLeP, Bool.and_eq_true] at hq
        exact hq.1)
    calc countObsLe R c (5/2) = (R.filter (obsLeP c (5/2))).length := rfl
      _ ≤ (R.filter (obsP c)).length := hsub.length_le
      _ = (classObs R c).length := by simp [classObs]
  · intro c
    unfold exportBuckets
    rw [hT c]
    congr 1
    exact List.map_congr_left (fun b hb => by rw [hC c b hb])
  · intro c
    simpa [cycleState, clearCnts, latSum, aget] using l3 c

/-- C5, witness: the bucket-count conjunct evaluated on a one-record batch at
the 0.1 boundary. -/
theorem c5_witness :
    latCount (cycleState (fun ip => ip) initState [qForwarded]) "forwarded" (1/10) =
      countObsLe [qForwarded] "forwarded" (1/10) :=
  (c5_histogram_invariant (fun ip => ip) initState [qForwarded]).1 "forwarded" (1/10)
    (by norm_num [latencyBuckets])

/-- C6: a record enters the latency histogram iff its reply time is present,
numeric and nonnegative — the sum over all classes of observation counts is
the number of valid-reply-time records, hence total-processed minus the
records with missing or negative reply time; and a record with missing or
negative reply time leaves every latency accumulator untouched while still
incrementing all five tables and total-processed. -/
theorem c6_latency_exclusion (rn : String → String) (S : CollectorState)
    (R : List Query) :
    (sumTotals (cycleState rn S R) = (R.filter qValid).length) ∧
    ((cycleState rn S R).total_queries_processed = R.length) ∧
    (sumTotals (cycleState rn S R) =
      (cycleState rn S R).total_queries_processed -
        (R.filter (fun q => !qValid q)).length) ∧
    (∀ q s', qValid q = false →
      (processQuery rn s' q).latency_counts = s'.latency_counts ∧
      (processQuery rn s' q).latency_sums = s'.latency_sums ∧
      (processQuery rn s' q).latency_total_counts = s'.latency_total_counts ∧
      (∀ k, aget 0 (processQuery rn s' q).type_cnt k =
        aget 0 s'.type_cnt k + (if k = q.qtype then 1 else 0)) ∧
      (∀ k, aget 0 (processQuery rn s' q).status_cnt k =
        aget 0 s'.status_cnt k + (if k = q.status then 1 else 0)) ∧
      (∀ k, aget 0 (processQuery rn s' q).reply_cnt k =
        aget 0 s'.reply_cnt k + (if k = q.replyType then 1 else 0)) ∧
      (∀ k, aget 0 (processQuery rn s' q).client_cnt k =
        aget 0 s'.client_cnt k + (if k = rn q.clientIp then 1 else 0)) ∧
      (∀ k, aget 0 (processQuery rn s' q).upstream_cnt k =
        aget 0 s'.upstream_cnt k +
          (if k = effUpstream q.upstream q.status then 1 else 0)) ∧
      ((processQuery rn s' q).total_queries_processed =
        s'.total_queries_processed + 1)) := by
  obtain ⟨lWF, l1, l2, l3, l4⟩ := ingest_lat rn R (clearCnts S) (WFLat_clearCnts S)
  obtain ⟨t1, t2, t3, t4, t5, t6, t7, t8⟩ := ingest_tables rn R (clearCnts S)
  have hsum : sumTotals (cycleState rn S R) = (R.filter qValid).length := by
    simpa [cycleState, clearCnts, sumTotals] using l4
  have htot : (cycleState rn S R).total_queries_processed = R.length := by
    simpa [cycleState, clearCnts] using t8
  refine ⟨hsum, htot, ?_, ?_⟩
  · rw [hsum, htot]
    have := filter_length_split qValid R
    omega
  · intro q s' hq
    obtain ⟨u1, u2, u3⟩ := pq_latency_unchanged rn s' q hq
    obtain ⟨p1, p2, p3, p4, p5, p6, p7, p8⟩ := pq_fields rn s' q
    exact ⟨u1, u2, u3, p1, p2, p3, p4, p5, p8⟩

/-- C6, witness: the per-record conjunct evaluated on a record whose reply
time is the sentinel -1. -/
theorem c6_witness :
    (processQuery (fun ip => ip) initState qNegativeReply).total_queries_processed =
      initState.total_queries_processed + 1 :=
  ((c6_latency_exclusion (fun ip => ip) initState [qNegativeReply]).2.2.2 qNegativeReply
    initState (by norm_num [qValid, qNegativeReply])).2.2.2.2.2.2.2.2

/-- C3: across log-shipping cycles the persisted cursor never decreases —
under the fetch-window assumption (every fetched record's timestamp is at
least the cursor plus one), a cycle started from a stored cursor value v
always leaves a stored value at least v; a successful cycle that fetches zero
records writes the current wall-clock time; and reading a missing or
unparseable cursor file yields now minus the 1800-second look-back, which is
nonzero whenever now is not exactly 1800. -/
theorem c3_cursor_monotone (host : String) (rn : String → String) (v now : Int)
    (fetched : Option (List LogRecord)) (pushOk : Bool)
    (hwin : ∀ r ∈ fetched.getD [], v + 1 ≤ (tsOf r).getD (v + 1)) :
    (∃ v', (runCycle host rn true (.stored v) now fetched pushOk).file =
      CursorFile.stored v' ∧ v ≤ v') ∧
    (v < now → runCycle host rn true (.stored v) now (some []) pushOk =
      ⟨CursorFile.stored now, true, false⟩) ∧
    (readLastTimestamp .missing now = now - 1800 ∧
     readLastTimestamp .invalid now = now - 1800 ∧
     (now ≠ 1800 → readLastTimestamp .missing now ≠ 0 ∧
       readLastTimestamp .invalid now ≠ 0)) := by
  refine ⟨?_, ?_, rfl, rfl, ?_⟩
  · by_cases hge : v ≥ now
    · refine ⟨v, ?_, le_refl v⟩
      simp [runCycle, readLastTimestamp, hge]
    · have hlt : v < now := not_le.mp hge
      rcases fetched with _ | qs
      · refine ⟨v, ?_, le_refl v⟩
        simp [runCycle, readLastTimestamp, hge]
      · by_cases hqs : qs = []
        · subst hqs
          refine ⟨now, ?_, le_of_lt hlt⟩
          simp [runCycle, readLastTimestamp, hge]
        · by_cases hfm : (formatForLoki host rn qs).1 = []
          · refine ⟨now, ?_, le_of_lt hlt⟩
            simp [runCycle, readLastTimestamp, hge, hqs, hfm]
          · by_cases hp : pushOk
            · obtain ⟨r, hr, t, ht⟩ := format_nonempty_has_ts host rn qs hfm
              have h1 : v + 1 ≤ t := by
                have hw := hwin r hr
                rw [ht] at hw
                simpa using hw
              have h2 : t ≤ (formatForLoki host rn qs).2 := format_max_ge host rn qs hr ht
              refine ⟨(formatForLoki host rn qs).2, ?_, by omega⟩
              simp [runCycle, readLastTimestamp, hge, hqs, hfm, hp]
            · refine ⟨v, ?_, le_refl v⟩
              simp [runCycle, readLastTimestamp, hge, hqs, hfm, hp]
  · intro hlt
    simp [runCycle, readLastTimestamp, not_le.mpr hlt]
  · intro hne
    constructor <;> simp [readLastTimestamp] <;> omega

/-- C3, witness: a cycle from stored cursor 100 at wall-clock 200 fetching one
record with timestamp 150 leaves a stored cursor at least 100. -/
theorem c3_witness :
    ∃ v', (runCycle "h" (fun ip => ip) true (.stored 100) 200
      (some [logRec150]) true).file = CursorFile.stored v' ∧ (100:Int) ≤ v' :=
  (c3_cursor_monotone "h" (fun ip => ip) 100 200 (some [logRec150]) true
    (by decide)).1

/-- C8: if the push to the log sink fails, the cursor file is left exactly as
it was before the cycle (given the cycle got as far as pushing: the cursor
was behind the clock and the batch formatted into at least one stream). -/
theorem c8_push_failure_keeps_cursor (host : String) (rn : String → String)
    (f : CursorFile) (now : Int) (qs : List LogRecord)
    (h1 : readLastTimestamp f now < now)
    (h2 : (formatForLoki host rn qs).1 ≠ []) :
    (runCycle host rn true f now (some qs) false).file = f := by
  have hqs : qs ≠ [] := by
    intro h
    subst h
    exact h2 rfl
  simp [runCycle, ge_iff_le, not_le.mpr h1, hqs, h2]

/-- C8, witness: a failing push with stored cursor 10 at wall-clock 20 and a
one-record batch leaves the cursor file at stored 10. -/
theorem c8_witness :
    (runCycle "h" (fun ip => ip) true (.stored 10) 20 (some [logRec150])
      false).file = CursorFile.stored 10 :=
  c8_push_failure_keeps_cursor "h" (fun ip => ip) (.stored 10) 20 [logRec150]
    (by decide) (by decide)

/-- C9: the log formatter groups records by the full eight-field label tuple —
for every key the group's value list is exactly the records carrying that key,
in input order (so records agreeing on all eight labels share one group);
groups appear in first-seen order of their key; and the returned timestamp is
the maximum over the formatted records' timestamps. -/
theorem c9_stream_grouping (host : String) (rn : String → String)
    (qs : List LogRecord) :
    (∀ k, aget [] (formatForLoki host rn qs).1 k =
      (qs.filter (fun r => (tsOf r).isSome && decide (mkKey host rn r = k))).map
        (fun r => ((tsOf r).getD 0 * 1000000000, r))) ∧
    ((formatForLoki host rn qs).1.map Prod.fst =
      dedupFirst ((qs.filter (fun r => (tsOf r).isSome)).map (mkKey host rn))) ∧
    ((formatForLoki host rn qs).2 = (qs.filterMap tsOf).foldl max 0) := by
  obtain ⟨g1, g2, g3⟩ := format_go host rn qs [] 0
  exact ⟨fun k => by simpa using g1 k, by simpa [dedupFirst] using g2, g3⟩

/-- C10: when the stored cursor is at or ahead of the wall clock, the cycle is
a no-op — no fetch is issued, no push is attempted, and the cursor file is
unchanged. -/
theorem c10_clock_skew_noop (host : String) (rn : String → String) (v now : Int)
    (fetched : Option (List LogRecord)) (pushOk : Bool) (h : now ≤ v) :
    runCycle host rn true (.stored v) now fetched pushOk =
      ⟨CursorFile.stored v, false, false⟩ := by
  simp [runCycle, readLastTimestamp, h]

/-- C10, witness: a cycle with stored cursor 5 at wall-clock 3 does nothing. -/
theorem c10_witness :
    runCycle "h" (fun ip => ip) true (.stored 5) 3 none true =
      ⟨CursorFile.stored 5, false, false⟩ :=
  c10_clock_skew_noop "h" (fun ip => ip) 5 3 none true (by decide)

end Pihole
